import Mathlib

/-!
Shallow embedding of the `fontkit` decode framework.

Buffers (`&[u8]` slices) are modelled as `List Nat` of byte values; reads and
length checks follow the Rust source (`src/decode.rs`, `src/primitives.rs`,
`src/error.rs`, `src/font.rs`, `src/table/maxp.rs`) and the sequential decode
code emitted by the derive in `decode_derive/src/lib.rs`.  A Rust panic
(out-of-bounds index or `split_at` beyond the end of a slice) is modelled
explicitly as the `DResult.panicked` outcome, distinct from an `Err` return.
-/

namespace Fontkit

/-- The `Error` from `src/error.rs`. -/
inductive Error where
  | unexpectedEof
  | invalidData
  | unsupportedCmapFormat
  | unsupportedVersion
  | ttcfUnsupported
deriving DecidableEq, Repr

/-- Outcome of running a decode step: `ok`/`err` mirror the Rust
`Result<T, Error>`, while `panicked` models a Rust panic (an out-of-bounds
slice index, or `split_at` past the end of the slice). -/
inductive DResult (α : Type) where
  | panicked
  | err (e : Error)
  | ok (v : α)
deriving DecidableEq, Repr

/-- Sequencing of decode steps: `?` propagation of `Err`, and a panic aborts
everything. -/
def DResult.bind {α β : Type} : DResult α → (α → DResult β) → DResult β
  | .panicked, _ => .panicked
  | .err e, _ => .err e
  | .ok v, f => f v

/-- Map over a successful result. -/
def DResult.map {α β : Type} (f : α → β) : DResult α → DResult β
  | .panicked => .panicked
  | .err e => .err e
  | .ok v => .ok (f v)

/-- The `buf.split_at(n).1` from the derive-generated decode code: the Rust
`split_at` panics when `n` exceeds the slice length, else yields the tail. -/
def splitAfter (n : Nat) (buf : List Nat) : DResult (List Nat) :=
  if n ≤ buf.length then .ok (buf.drop n) else .panicked

/-- The `byteorder` big-endian 16-bit read, `BigEndian::read_u16`.  Every call
site in the source is guarded by a length check, so total `getD` access is
faithful there. -/
def read_u16 (buf : List Nat) : Nat :=
  buf.getD 0 0 * 2 ^ 8 + buf.getD 1 0

/-- The `BigEndian::read_u24`. -/
def read_u24 (buf : List Nat) : Nat :=
  buf.getD 0 0 * 2 ^ 16 + buf.getD 1 0 * 2 ^ 8 + buf.getD 2 0

/-- The `BigEndian::read_u32`. -/
def read_u32 (buf : List Nat) : Nat :=
  buf.getD 0 0 * 2 ^ 24 + buf.getD 1 0 * 2 ^ 16 + buf.getD 2 0 * 2 ^ 8 +
    buf.getD 3 0

/-- The `BigEndian::read_u64`. -/
def read_u64 (buf : List Nat) : Nat :=
  buf.getD 0 0 * 2 ^ 56 + buf.getD 1 0 * 2 ^ 48 + buf.getD 2 0 * 2 ^ 40 +
    buf.getD 3 0 * 2 ^ 32 + buf.getD 4 0 * 2 ^ 24 + buf.getD 5 0 * 2 ^ 16 +
    buf.getD 6 0 * 2 ^ 8 + buf.getD 7 0

/-- Reinterpret a `w`-bit unsigned value as a twos-complement signed
integer, as the Rust `as iN` casts and `read_iN` readers do. -/
def toSigned (w : Nat) (v : Nat) : Int :=
  if v % 2 ^ w < 2 ^ (w - 1) then ((v % 2 ^ w : Nat) : Int)
  else ((v % 2 ^ w : Nat) : Int) - 2 ^ w

/-- The `BigEndian::read_i16`. -/
def read_i16 (buf : List Nat) : Int := toSigned 16 (read_u16 buf)

/-- The `BigEndian::read_i32`. -/
def read_i32 (buf : List Nat) : Int := toSigned 32 (read_u32 buf)

/-- The `BigEndian::read_i64`. -/
def read_i64 (buf : List Nat) : Int := toSigned 64 (read_u64 buf)

/-- The `read_u8` from `src/primitives.rs`: `buffer[0]` (guarded at its call
site by `required_len!`). -/
def read_u8 (buf : List Nat) : Nat := buf.getD 0 0

/-- The `read_i8` from `src/primitives.rs`: `buffer[0] as i8`. -/
def read_i8 (buf : List Nat) : Int := toSigned 8 (buf.getD 0 0)

/-! Primitive decoders generated by the `impl_decode!` macro in
`src/primitives.rs`: each checks `required_len!(buffer, Self::size())`, then
converts with the `byteorder` reader.  The wrapper newtypes (`FWord`,
`UFWord`, `F2Dot14`, `Fixed`, `LongDateTime`, `Uint24`) are represented by
their underlying integer value. -/

def u8.size : Nat := 1

def u8.decode (buffer : List Nat) : DResult Nat :=
  if buffer.length < u8.size then .err .unexpectedEof
  else .ok (read_u8 buffer)

def i8.size : Nat := 1

def i8.decode (buffer : List Nat) : DResult Int :=
  if buffer.length < i8.size then .err .unexpectedEof
  else .ok (read_i8 buffer)

def u16.size : Nat := 2

def u16.decode (buffer : List Nat) : DResult Nat :=
  if buffer.length < u16.size then .err .unexpectedEof
  else .ok (read_u16 buffer)

def i16.size : Nat := 2

def i16.decode (buffer : List Nat) : DResult Int :=
  if buffer.length < i16.size then .err .unexpectedEof
  else .ok (read_i16 buffer)

def u32.size : Nat := 4

def u32.decode (buffer : List Nat) : DResult Nat :=
  if buffer.length < u32.size then .err .unexpectedEof
  else .ok (read_u32 buffer)

def i32.size : Nat := 4

def i32.decode (buffer : List Nat) : DResult Int :=
  if buffer.length < i32.size then .err .unexpectedEof
  else .ok (read_i32 buffer)

def i64.size : Nat := 8

def i64.decode (buffer : List Nat) : DResult Int :=
  if buffer.length < i64.size then .err .unexpectedEof
  else .ok (read_i64 buffer)

/-- The `static_size!(Uint24 = 3)`. -/
def Uint24.size : Nat := 3

/-- The `Uint24::decode`: checks the length, then `BigEndian::read_u24`. -/
def Uint24.decode (buffer : List Nat) : DResult Nat :=
  if buffer.length < Uint24.size then .err .unexpectedEof
  else .ok (read_u24 buffer)

def FWord.size : Nat := 2

/-- The `FWord(i16)` decodes via `BigEndian::read_i16`. -/
def FWord.decode (buffer : List Nat) : DResult Int :=
  if buffer.length < FWord.size then .err .unexpectedEof
  else .ok (read_i16 buffer)

def UFWord.size : Nat := 2

/-- The `UFWord(u16)` decodes via `BigEndian::read_u16`. -/
def UFWord.decode (buffer : List Nat) : DResult Nat :=
  if buffer.length < UFWord.size then .err .unexpectedEof
  else .ok (read_u16 buffer)

def F2Dot14.size : Nat := 2

/-- The `F2Dot14(i16)` decodes via `BigEndian::read_i16`; the value is the raw
fixed-point integer. -/
def F2Dot14.decode (buffer : List Nat) : DResult Int :=
  if buffer.length < F2Dot14.size then .err .unexpectedEof
  else .ok (read_i16 buffer)

def Fixed.size : Nat := 4

/-- The `Fixed(i32)` decodes via `BigEndian::read_i32`. -/
def Fixed.decode (buffer : List Nat) : DResult Int :=
  if buffer.length < Fixed.size then .err .unexpectedEof
  else .ok (read_i32 buffer)

def LongDateTime.size : Nat := 8

/-- The `LongDateTime(u64)` decodes via `BigEndian::read_u64`. -/
def LongDateTime.decode (buffer : List Nat) : DResult Nat :=
  if buffer.length < LongDateTime.size then .err .unexpectedEof
  else .ok (read_u64 buffer)

/-- The `Tag`: four raw bytes (`src/primitives.rs`). -/
structure Tag where
  b0 : Nat
  b1 : Nat
  b2 : Nat
  b3 : Nat
deriving DecidableEq, Repr

/-- The `static_size!(Tag = 4)`. -/
def Tag.size : Nat := 4

/-- The `Tag::decode` from `src/primitives.rs`: it indexes `buffer[0]` through
`buffer[3]` with no `required_len!` guard, so a buffer shorter than 4 bytes
makes it panic (out-of-bounds index); it never returns an `Err`. -/
def Tag.decode (buffer : List Nat) : DResult Tag :=
  match buffer[0]?, buffer[1]?, buffer[2]?, buffer[3]? with
  | some a, some b, some c, some d => .ok ⟨a, b, c, d⟩
  | _, _, _, _ => .panicked

/-- The `Version` from `src/font.rs`. -/
inductive Version where
  | openType
  | trueType
deriving DecidableEq, Repr

/-- The `static_size!(Version = 4)`. -/
def Version.size : Nat := 4

/-- The `Version::decode` from `src/font.rs`: reads a `Tag` and matches it
against `"OTTO"`, `[0,1,0,0]`, `"true"`, `"typ1"`, `"ttcf"`. -/
def Version.decode (buffer : List Nat) : DResult Version :=
  DResult.bind (Tag.decode buffer) fun tag =>
    if tag = ⟨0x4F, 0x54, 0x54, 0x4F⟩ then .ok .openType
    else if tag = ⟨0x00, 0x01, 0x00, 0x00⟩ ∨ tag = ⟨0x74, 0x72, 0x75, 0x65⟩ ∨
        tag = ⟨0x74, 0x79, 0x70, 0x31⟩ then .ok .trueType
    else if tag = ⟨0x74, 0x74, 0x63, 0x66⟩ then .err .ttcfUnsupported
    else .err .invalidData

/-! The generic decode plumbing from `src/decode.rs`.  A Rust type parameter
`T: Decode + EncodeSize` is modelled as a `Codec` record bundling the two
trait methods; `T: Decode + StaticEncodeSize` as a `StaticCodec` (whose
blanket `EncodeSize` impl returns the constant `size`). -/

/-- A `Decode + EncodeSize` bound: a decode function plus the
`encode_size` query. -/
structure Codec (α : Type) where
  decode : List Nat → DResult α
  encodeSize : α → Nat

/-- A `Decode + StaticEncodeSize` bound: a decode function plus the
constant `size()`. -/
structure StaticCodec (α : Type) where
  size : Nat
  decode : List Nat → DResult α

/-- The blanket `impl<T: StaticEncodeSize> EncodeSize for T`:
`encode_size` is the constant `Self::size()`. -/
def StaticCodec.toCodec {α : Type} (c : StaticCodec α) : Codec α :=
  ⟨c.decode, fun _ => c.size⟩

/-- A `DecodeWith + EncodeSize` bound (`Decode1` in `src/decode.rs`): a
parameterized decode plus `encode_size`. -/
structure Codec1 (π α : Type) where
  decode : List Nat → π → DResult α
  encodeSize : α → Nat

/-- The `decode_read` for `&[u8]` (`src/decode.rs` lines 45-52):
`let ret = T::decode(self)?; *self = &self[ret.encode_size()..]; Ok(ret)`.
The result is paired with the view after the call: on `Err` the early
return leaves the view untouched; re-slicing past the end of the view is a
panic. -/
def decodeRead {α : Type} (c : Codec α) (buf : List Nat) :
    DResult α × List Nat :=
  match c.decode buf with
  | .panicked => (.panicked, buf)
  | .err e => (.err e, buf)
  | .ok v =>
    if c.encodeSize v ≤ buf.length then (.ok v, buf.drop (c.encodeSize v))
    else (.panicked, buf)

/-- The `decode_read1` for `&[u8]` (`src/decode.rs` lines 74-83), the
one-parameter variant of `decode_read`. -/
def decodeRead1 {π α : Type} (c : Codec1 π α) (buf : List Nat) (param : π) :
    DResult α × List Nat :=
  match c.decode buf param with
  | .panicked => (.panicked, buf)
  | .err e => (.err e, buf)
  | .ok v =>
    if c.encodeSize v ≤ buf.length then (.ok v, buf.drop (c.encodeSize v))
    else (.panicked, buf)

/-- The `Array<T>` (borrowing the font buffer) from `src/primitives.rs`: a stored buffer view and an
element count; the element type is a phantom parameter. -/
structure Array (α : Type) where
  buffer : List Nat
  len : Nat
deriving DecidableEq, Repr

/-- The `Array::decode_with(buffer, param)`: stores the view and the count,
decoding nothing. -/
def Array.decodeWith (α : Type) (buffer : List Nat) (param : Nat) :
    DResult (Array α) :=
  .ok { buffer := buffer, len := param }

/-- The `impl EncodeSize for Array<T>`: `T::size() * self.len`; the element
size is passed explicitly. -/
def Array.encodeSize {α : Type} (elemSize : Nat) (a : Array α) : Nat :=
  elemSize * a.len

/-- The `ArrayIter<T>` (borrowing the font buffer) from `src/primitives.rs`: buffer view, element
count and position. -/
structure ArrayIter where
  buffer : List Nat
  len : Nat
  pos : Nat
deriving DecidableEq, Repr

/-- The `IntoIterator for Array<T>`: a fresh iterator over the stored buffer
and count, starting at position 0. -/
def Array.intoIter {α : Type} (a : Array α) : ArrayIter :=
  ⟨a.buffer, a.len, 0⟩

/-- Helper for the iteration loop, structurally recursive on the number of
`next` calls still allowed, `len - pos` (the iterator state enters
`ArrayIter::next` only through the `pos >= len` comparison and the `pos`
increment, so the remaining count is the whole of it). -/
def ArrayIter.toListAux {α : Type} (c : StaticCodec α) :
    Nat → List Nat → DResult (List α)
  | 0, _ => .ok []
  | n + 1, buf =>
    match decodeRead c.toCodec buf with
    | (.panicked, _) => .panicked
    | (.err _, _) => .ok []
    | (.ok v, b) => DResult.map (v :: ·) (ArrayIter.toListAux c n b)

/-- The sequence a `for` loop obtains from `ArrayIter::next` until the
first `None`.  Each step inlines `next` (`src/primitives.rs` lines
267-274): when `pos < len`, `pos` is bumped and
`self.buffer.decode_read::<T>().ok()` is evaluated — a decode `Err` is
swallowed into `None` (ending the sequence with the buffer untouched),
while a panic inside `decode_read` aborts the whole iteration. -/
def ArrayIter.toList {α : Type} (c : StaticCodec α) (it : ArrayIter) :
    DResult (List α) :=
  ArrayIter.toListAux c (it.len - it.pos) it.buffer

/-- Iterating an `Array` (`for r in arr { ... }`): the element sequence of
a fresh iterator. -/
def Array.toList {α : Type} (c : StaticCodec α) (a : Array α) :
    DResult (List α) :=
  (a.intoIter).toList c

/-! Composite records.  Their decode bodies transcribe the code emitted by
`decode_derive/src/lib.rs` (`impl_decode` / `decode_field` / `build_field`):
for every non-parameter field, `let f = <Ty>::decode(buf)?;` followed by
`let buf = buf.split_at(f.encode_size()).1;` — including after the last
field.  `Discarded<T>` fields decode the inner `T` (binding its value for
later `WithParam` expressions) and store a zero-size marker; `Ignored<T>`
decodes to a marker without touching the buffer and its `split_at` consumes
`T::size()` bytes; a field whose name starts with `__` is not read from the
buffer but supplied as a decode parameter (`Decode1`). -/

/-- The `TableRecord` from `src/font.rs`: `tag`, `check_sum`, `offset`,
`length`, all plain fields. -/
structure TableRecord where
  tag : Tag
  check_sum : Nat
  offset : Nat
  length : Nat
deriving DecidableEq, Repr

/-- The `#[derive(StaticEncodeSize)]` for `TableRecord`: the sum of the field
sizes, `4 + 4 + 4 + 4 = 16`. -/
def TableRecord.size : Nat :=
  Tag.size + u32.size + u32.size + u32.size

/-- The `#[derive(Decode)]` for `TableRecord`: sequential field decode with a
`split_at` advance after each field. -/
def TableRecord.decode (buffer : List Nat) : DResult TableRecord :=
  DResult.bind (Tag.decode buffer) fun tag =>
  DResult.bind (splitAfter Tag.size buffer) fun buf =>
  DResult.bind (u32.decode buf) fun check_sum =>
  DResult.bind (splitAfter u32.size buf) fun buf =>
  DResult.bind (u32.decode buf) fun offset =>
  DResult.bind (splitAfter u32.size buf) fun buf =>
  DResult.bind (u32.decode buf) fun length =>
  DResult.bind (splitAfter u32.size buf) fun _buf =>
  .ok { tag, check_sum, offset, length }

/-- The `StaticCodec` packaging of `TableRecord` for use as an `Array` element
(`T: Decode + StaticEncodeSize`). -/
def TableRecord.staticCodec : StaticCodec TableRecord :=
  ⟨TableRecord.size, TableRecord.decode⟩

/-- The `OffsetTable` from `src/font.rs`.  The Rust struct also carries the
zero-size markers for its `Discarded` fields (`__font`, `num_tables`) and
`Ignored` fields (`search_range`, `entry_selector`, `range_shift`); only
the information-bearing fields are represented here. -/
structure OffsetTable where
  sfnt_version : Version
  tables : Array TableRecord
deriving DecidableEq, Repr

/-- The `#[derive(Decode)]` for `OffsetTable`: since `__font:
Discarded<..>` wrapping the borrowed font buffer starts with `__`, the
entry point is the one-parameter `Decode1::decode(buffer, __font)`; the
parameter is
dropped into a zero-size marker.  Field order: `sfnt_version` (Version,
plain), `num_tables` (`Discarded<u16>`, decoded as `u16` and kept for the
`WithParam` expression), three `Ignored<u16>` fields (their decode always
succeeds; the following `split_at(2)` does the consumption), and `tables`
(`Array<TableRecord>` decoded with `num_tables as usize`, then a
`split_at(tables.encode_size())`). -/
def OffsetTable.decode (__font : List Nat) (buffer : List Nat) :
    DResult OffsetTable :=
  DResult.bind (Version.decode buffer) fun sfnt_version =>
  DResult.bind (splitAfter Version.size buffer) fun buf =>
  DResult.bind (u16.decode buf) fun num_tables =>
  DResult.bind (splitAfter u16.size buf) fun buf =>
  DResult.bind (splitAfter u16.size buf) fun buf =>
  DResult.bind (splitAfter u16.size buf) fun buf =>
  DResult.bind (splitAfter u16.size buf) fun buf =>
  DResult.bind (Array.decodeWith TableRecord buf num_tables) fun tables =>
  DResult.bind (splitAfter (tables.encodeSize TableRecord.size) buf)
    fun _buf =>
  .ok { sfnt_version, tables }

/-- The `Version05` from `src/table/maxp.rs`. -/
structure Version05 where
  version : Int
  num_glyphs : Nat
deriving DecidableEq, Repr

/-- The `#[derive(StaticEncodeSize)]` for `Version05`: `4 + 2 = 6`. -/
def Version05.size : Nat := Fixed.size + u16.size

/-- The `#[derive(Decode)]` for `Version05`: `version: Fixed`, then
`num_glyphs: u16`. -/
def Version05.decode (buffer : List Nat) : DResult Version05 :=
  DResult.bind (Fixed.decode buffer) fun version =>
  DResult.bind (splitAfter Fixed.size buffer) fun buf =>
  DResult.bind (u16.decode buf) fun num_glyphs =>
  DResult.bind (splitAfter u16.size buf) fun _buf =>
  .ok { version, num_glyphs }

/-- The `Version1` from `src/table/maxp.rs`: `version: Fixed` plus fourteen
`u16` fields. -/
structure Version1 where
  version : Int
  num_glyphs : Nat
  max_points : Nat
  max_contours : Nat
  max_composite_points : Nat
  max_composite_contours : Nat
  max_zones : Nat
  max_twilight_points : Nat
  max_storage : Nat
  max_function_defs : Nat
  max_instruction_defs : Nat
  max_stack_elements : Nat
  max_size_of_instructions : Nat
  max_component_elements : Nat
  max_component_depth : Nat
deriving DecidableEq, Repr

/-- The `#[derive(StaticEncodeSize)]` for `Version1`: `4 + 14 * 2 = 32`. -/
def Version1.size : Nat := Fixed.size + 14 * u16.size

/-- The `#[derive(Decode)]` for `Version1`: `version: Fixed`, then the
fourteen `u16` fields in declaration order. -/
def Version1.decode (buffer : List Nat) : DResult Version1 :=
  DResult.bind (Fixed.decode buffer) fun version =>
  DResult.bind (splitAfter Fixed.size buffer) fun buf =>
  DResult.bind (u16.decode buf) fun num_glyphs =>
  DResult.bind (splitAfter u16.size buf) fun buf =>
  DResult.bind (u16.decode buf) fun max_points =>
  DResult.bind (splitAfter u16.size buf) fun buf =>
  DResult.bind (u16.decode buf) fun max_contours =>
  DResult.bind (splitAfter u16.size buf) fun buf =>
  DResult.bind (u16.decode buf) fun max_composite_points =>
  DResult.bind (splitAfter u16.size buf) fun buf =>
  DResult.bind (u16.decode buf) fun max_composite_contours =>
  DResult.bind (splitAfter u16.size buf) fun buf =>
  DResult.bind (u16.decode buf) fun max_zones =>
  DResult.bind (splitAfter u16.size buf) fun buf =>
  DResult.bind (u16.decode buf) fun max_twilight_points =>
  DResult.bind (splitAfter u16.size buf) fun buf =>
  DResult.bind (u16.decode buf) fun max_storage =>
  DResult.bind (splitAfter u16.size buf) fun buf =>
  DResult.bind (u16.decode buf) fun max_function_defs =>
  DResult.bind (splitAfter u16.size buf) fun buf =>
  DResult.bind (u16.decode buf) fun max_instruction_defs =>
  DResult.bind (splitAfter u16.size buf) fun buf =>
  DResult.bind (u16.decode buf) fun max_stack_elements =>
  DResult.bind (splitAfter u16.size buf) fun buf =>
  DResult.bind (u16.decode buf) fun max_size_of_instructions =>
  DResult.bind (splitAfter u16.size buf) fun buf =>
  DResult.bind (u16.decode buf) fun max_component_elements =>
  DResult.bind (splitAfter u16.size buf) fun buf =>
  DResult.bind (u16.decode buf) fun max_component_depth =>
  DResult.bind (splitAfter u16.size buf) fun _buf =>
  .ok { version, num_glyphs, max_points, max_contours,
        max_composite_points, max_composite_contours, max_zones,
        max_twilight_points, max_storage, max_function_defs,
        max_instruction_defs, max_stack_elements,
        max_size_of_instructions, max_component_elements,
        max_component_depth }

/-- The `Maxp` from `src/table/maxp.rs`. -/
inductive Maxp where
  | version05 (t : Version05)
  | version1 (t : Version1)
deriving DecidableEq, Repr

/-- The `Maxp::decode`: reads the `u32` discriminant from the start of the
buffer, then decodes the matching variant from the *same* starting buffer;
an unrecognized discriminant is `Err(UnsupportedVersion)`. -/
def Maxp.decode (buffer : List Nat) : DResult Maxp :=
  DResult.bind (u32.decode buffer) fun version =>
    if version = 0x00005000 then
      DResult.map Maxp.version05 (Version05.decode buffer)
    else if version = 0x00010000 then
      DResult.map Maxp.version1 (Version1.decode buffer)
    else .err .unsupportedVersion

/-- The `From<F2Dot14> for f64`: `(raw as f64) / ((1i32 << 14) as f64)`.
Modelled over `ℚ`: for every `i16` raw value the IEEE double computation
is exact — the numerator has at most 15 significant bits (well within the
53-bit significand) and dividing by `2^14` only shifts the exponent — so
the float result equals this rational. -/
def F2Dot14.toF64 (raw : Int) : ℚ := (raw : ℚ) / 2 ^ 14

/-- The `From<F2Dot14> for f32`: `(raw as f32) / ((1i32 << 14) as f32)`.
Exact over `ℚ` for the same reason as `F2Dot14.toF64` (15 significant bits
fit the 24-bit single-precision significand). -/
def F2Dot14.toF32 (raw : Int) : ℚ := (raw : ℚ) / 2 ^ 14

/-- The `u16` packaged as a `Decode + StaticEncodeSize` element type. -/
def u16.staticCodec : StaticCodec Nat := ⟨u16.size, u16.decode⟩

/-- The `u16` packaged as a `Decode + EncodeSize` type (via the blanket
impl). -/
def u16.codec : Codec Nat := u16.staticCodec.toCodec

/-- The `Tag` packaged as a `Decode + StaticEncodeSize` element type (its
decode is unguarded, see `Tag.decode`). -/
def Tag.staticCodec : StaticCodec Tag := ⟨Tag.size, Tag.decode⟩

/-- The `Array<TableRecord>` packaged as a `DecodeWith<usize> + EncodeSize`
type, the shape `decode_read1` requires. -/
def Array.tableRecordCodec1 : Codec1 Nat (Array TableRecord) :=
  ⟨fun buf n => Array.decodeWith TableRecord buf n,
   Array.encodeSize TableRecord.size⟩

/-- The record a 16-byte big-endian `TableRecord` encoding denotes:
`tag`(4 raw bytes) + `check_sum`(u32) + `offset`(u32) + `length`(u32). -/
def TableRecord.parsedFrom (bs : List Nat) : TableRecord :=
  { tag := ⟨bs.getD 0 0, bs.getD 1 0, bs.getD 2 0, bs.getD 3 0⟩,
    check_sum := read_u32 (bs.drop 4),
    offset := read_u32 (bs.drop 8),
    length := read_u32 (bs.drop 12) }

/-! Helper lemmas (shared). -/

theorem tag_decode_of_le (bs : List Nat) (h : 4 ≤ bs.length) :
    Tag.decode bs = .ok ⟨bs.getD 0 0, bs.getD 1 0, bs.getD 2 0, bs.getD 3 0⟩ := by
  rcases bs with _ | ⟨a, _ | ⟨b, _ | ⟨c, _ | ⟨d, t⟩⟩⟩⟩
  · exact absurd h (by simp)
  · exact absurd h (by simp)
  · exact absurd h (by simp)
  · exact absurd h (by simp)
  · simp [Tag.decode, List.getD]

theorem tag_decode_short (bs : List Nat) (h : bs.length < 4) :
    Tag.decode bs = .panicked := by
  rcases bs with _ | ⟨a, _ | ⟨b, _ | ⟨c, _ | ⟨d, t⟩⟩⟩⟩
  · rfl
  · rfl
  · rfl
  · rfl
  · exact absurd h (by simp)

theorem tag_decode_ne_err (bs : List Nat) (e : Error) :
    Tag.decode bs ≠ .err e := by
  rcases Nat.lt_or_ge bs.length 4 with h | h
  · rw [tag_decode_short bs h]; intro hc; exact DResult.noConfusion hc
  · rw [tag_decode_of_le bs h]; intro hc; exact DResult.noConfusion hc

theorem u16_decode_of_le (bs : List Nat) (h : u16.size ≤ bs.length) :
    u16.decode bs = .ok (read_u16 bs) := by
  rw [u16.decode, if_neg (by omega)]

theorem u16_decode_short (bs : List Nat) (h : bs.length < u16.size) :
    u16.decode bs = .err .unexpectedEof := by
  rw [u16.decode, if_pos h]

theorem u32_decode_of_le (bs : List Nat) (h : u32.size ≤ bs.length) :
    u32.decode bs = .ok (read_u32 bs) := by
  rw [u32.decode, if_neg (by omega)]

theorem version05_decode_of_le (bs : List Nat) (h : 6 ≤ bs.length) :
    Version05.decode bs = .ok ⟨read_i32 bs, read_u16 (bs.drop 4)⟩ := by
  simp (disch := omega) only [Version05.decode, Fixed.decode, u16.decode,
    splitAfter, DResult.bind, Fixed.size, u16.size, List.length_drop,
    if_pos, if_neg]

theorem version1_decode_of_le (bs : List Nat) (h : 32 ≤ bs.length) :
    Version1.decode bs = .ok ⟨read_i32 bs, read_u16 (bs.drop 4),
      read_u16 (bs.drop 6), read_u16 (bs.drop 8), read_u16 (bs.drop 10),
      read_u16 (bs.drop 12), read_u16 (bs.drop 14), read_u16 (bs.drop 16),
      read_u16 (bs.drop 18), read_u16 (bs.drop 20), read_u16 (bs.drop 22),
      read_u16 (bs.drop 24), read_u16 (bs.drop 26), read_u16 (bs.drop 28),
      read_u16 (bs.drop 30)⟩ := by
  simp (disch := omega) only [Version1.decode, Fixed.decode, u16.decode,
    splitAfter, DResult.bind, Fixed.size, u16.size, List.length_drop,
    List.drop_drop, if_pos, if_neg]

theorem version_decode_ok_length (bs : List Nat) (v : Version)
    (hv : Version.decode bs = .ok v) : 4 ≤ bs.length := by
  by_contra hlt
  rw [Version.decode, tag_decode_short bs (by omega)] at hv
  exact DResult.noConfusion hv

/-! The claims. -/

/-- C6: the cursor read `decode_read::<T>` on a byte-slice view returns,
on success, the decoded value with the view advanced by exactly that
`encode_size()` of that value; on an `Err` it propagates the error with the view
left unchanged; and the same holds for the one-parameter `decode_read1`. -/
theorem C6_cursor_read :
    (∀ (α : Type) (c : Codec α) (buf buf' : List Nat) (v : α),
       decodeRead c buf = (.ok v, buf') →
         c.decode buf = .ok v ∧ c.encodeSize v ≤ buf.length ∧
           buf' = buf.drop (c.encodeSize v)) ∧
    (∀ (α : Type) (c : Codec α) (buf buf' : List Nat) (e : Error),
       decodeRead c buf = (.err e, buf') →
         c.decode buf = .err e ∧ buf' = buf) ∧
    (∀ (π α : Type) (c : Codec1 π α) (buf buf' : List Nat) (p : π) (v : α),
       decodeRead1 c buf p = (.ok v, buf') →
         c.decode buf p = .ok v ∧ c.encodeSize v ≤ buf.length ∧
           buf' = buf.drop (c.encodeSize v)) ∧
    (∀ (π α : Type) (c : Codec1 π α) (buf buf' : List Nat) (p : π)
       (e : Error),
       decodeRead1 c buf p = (.err e, buf') →
         c.decode buf p = .err e ∧ buf' = buf) := by
  refine ⟨?_, ?_, ?_, ?_⟩
  · intro α c buf buf' v h
    rw [decodeRead] at h
    rcases hd : c.decode buf with _ | e' | w <;> rw [hd] at h <;>
      dsimp only at h
    · simp at h
    · simp at h
    · by_cases hle : c.encodeSize w ≤ buf.length
      · rw [if_pos hle] at h
        simp only [Prod.mk.injEq, DResult.ok.injEq] at h
        obtain ⟨rfl, rfl⟩ := h
        exact ⟨rfl, hle, rfl⟩
      · rw [if_neg hle] at h
        simp at h
  · intro α c buf buf' e h
    rw [decodeRead] at h
    rcases hd : c.decode buf with _ | e' | w <;> rw [hd] at h <;>
      dsimp only at h
    · simp at h
    · simp only [Prod.mk.injEq, DResult.err.injEq] at h
      obtain ⟨rfl, rfl⟩ := h
      exact ⟨rfl, rfl⟩
    · by_cases hle : c.encodeSize w ≤ buf.length
      · rw [if_pos hle] at h
        simp at h
      · rw [if_neg hle] at h
        simp at h
  · intro π α c buf buf' p v h
    rw [decodeRead1] at h
    rcases hd : c.decode buf p with _ | e' | w <;> rw [hd] at h <;>
      dsimp only at h
    · simp at h
    · simp at h
    · by_cases hle : c.encodeSize w ≤ buf.length
      · rw [if_pos hle] at h
        simp only [Prod.mk.injEq, DResult.ok.injEq] at h
        obtain ⟨rfl, rfl⟩ := h
        exact ⟨rfl, hle, rfl⟩
      · rw [if_neg hle] at h
        simp at h
  · intro π α c buf buf' p e h
    rw [decodeRead1] at h
    rcases hd : c.decode buf p with _ | e' | w <;> rw [hd] at h <;>
      dsimp only at h
    · simp at h
    · simp only [Prod.mk.injEq, DResult.err.injEq] at h
      obtain ⟨rfl, rfl⟩ := h
      exact ⟨rfl, rfl⟩
    · by_cases hle : c.encodeSize w ≤ buf.length
      · rw [if_pos hle] at h
        simp at h
      · rw [if_neg hle] at h
        simp at h

/-- C6 witness: concrete cursor reads — a successful `u16` read off
`[1,2,3]`, a failing `u16` read off `[9]`, and a successful
`Array<TableRecord>` read (via `decode_read1`) off 16 zero bytes. -/
theorem C6_cursor_read_witness :
    (u16.codec.decode [1, 2, 3] = .ok 258 ∧
       u16.codec.encodeSize 258 ≤ 3 ∧
       [3] = List.drop (u16.codec.encodeSize 258) [1, 2, 3]) ∧
    (u16.codec.decode [9] = .err .unexpectedEof ∧ ([9] : List Nat) = [9]) ∧
    (Array.tableRecordCodec1.decode (List.replicate 16 0) 1 =
       .ok ⟨List.replicate 16 0, 1⟩ ∧
     Array.tableRecordCodec1.encodeSize ⟨List.replicate 16 0, 1⟩ ≤ 16 ∧
       ([] : List Nat) =
         List.drop (Array.tableRecordCodec1.encodeSize
           ⟨List.replicate 16 0, 1⟩) (List.replicate 16 0)) := by
  refine ⟨?_, ?_, ?_⟩
  · simpa using C6_cursor_read.1 Nat u16.codec [1, 2, 3] [3] 258 (by decide)
  · exact C6_cursor_read.2.1 Nat u16.codec [9] [9] .unexpectedEof (by decide)
  · simpa using C6_cursor_read.2.2.1 Nat (Array TableRecord)
      Array.tableRecordCodec1 (List.replicate 16 0) [] 1
      ⟨List.replicate 16 0, 1⟩ (by decide)

/-- C4: `Maxp::decode` reads a big-endian `u32` discriminant from the
start of the buffer; `0x00005000` selects `Version05` and `0x00010000`
selects `Version1`, each decoded from the *same* starting buffer (so the
`version: Fixed` field of the variant re-reads the discriminant bytes, as the
last two conjuncts exhibit); any other discriminant gives
`Err(UnsupportedVersion)`. -/
theorem C4_maxp_dispatch :
    ∀ bs : List Nat, 4 ≤ bs.length →
      (read_u32 bs = 0x00005000 →
         Maxp.decode bs = DResult.map Maxp.version05 (Version05.decode bs)) ∧
      (read_u32 bs = 0x00010000 →
         Maxp.decode bs = DResult.map Maxp.version1 (Version1.decode bs)) ∧
      (read_u32 bs ≠ 0x00005000 → read_u32 bs ≠ 0x00010000 →
         Maxp.decode bs = .err .unsupportedVersion) ∧
      (read_u32 bs = 0x00005000 → 6 ≤ bs.length →
         Maxp.decode bs =
           .ok (.version05 ⟨read_i32 bs, read_u16 (bs.drop 4)⟩)) ∧
      (read_u32 bs = 0x00010000 → 32 ≤ bs.length →
         Maxp.decode bs = .ok (.version1 ⟨read_i32 bs, read_u16 (bs.drop 4),
           read_u16 (bs.drop 6), read_u16 (bs.drop 8), read_u16 (bs.drop 10),
           read_u16 (bs.drop 12), read_u16 (bs.drop 14),
           read_u16 (bs.drop 16), read_u16 (bs.drop 18),
           read_u16 (bs.drop 20), read_u16 (bs.drop 22),
           read_u16 (bs.drop 24), read_u16 (bs.drop 26),
           read_u16 (bs.drop 28), read_u16 (bs.drop 30)⟩)) := by
  intro bs h
  have hu : u32.decode bs = .ok (read_u32 bs) := u32_decode_of_le bs h
  refine ⟨?_, ?_, ?_, ?_, ?_⟩
  · intro h5
    rw [Maxp.decode]; simp only [hu, DResult.bind]; rw [if_pos h5]
  · intro h1
    rw [Maxp.decode]; simp only [hu, DResult.bind]
    rw [if_neg (by rw [h1]; decide), if_pos h1]
  · intro hn5 hn1
    rw [Maxp.decode]; simp only [hu, DResult.bind]
    rw [if_neg hn5, if_neg hn1]
  · intro h5 h6
    rw [Maxp.decode]; simp only [hu, DResult.bind]
    rw [if_pos h5, version05_decode_of_le bs h6]; rfl
  · intro h1 h32
    rw [Maxp.decode]; simp only [hu, DResult.bind]
    rw [if_neg (by rw [h1]; decide), if_pos h1,
      version1_decode_of_le bs h32]; rfl

/-- C4 witness: concrete dispatches for the three discriminants. -/
theorem C4_maxp_dispatch_witness :
    Maxp.decode [0, 0, 0x50, 0, 0, 7] = .ok (.version05 ⟨0x5000, 7⟩) ∧
    Maxp.decode (0 :: 1 :: 0 :: 0 :: List.replicate 28 0) =
      .ok (.version1 ⟨0x10000, 0, 0, 0, 0, 0, 0, 0, 0, 0, 0, 0, 0, 0, 0⟩) ∧
    Maxp.decode [0, 2, 0, 0] = .err .unsupportedVersion := by
  refine ⟨?_, ?_, ?_⟩
  · have h := (C4_maxp_dispatch [0, 0, 0x50, 0, 0, 7] (by decide)).2.2.2.1
      (by decide) (by decide)
    exact h.trans (by decide)
  · have h := (C4_maxp_dispatch (0 :: 1 :: 0 :: 0 :: List.replicate 28 0)
      (by decide)).2.2.2.2 (by decide) (by decide)
    exact h.trans (by decide)
  · exact (C4_maxp_dispatch [0, 2, 0, 0] (by decide)).2.2.1 (by decide)
      (by decide)

/-- C3: `Version::decode` on a 4-byte buffer classifies exactly as in
`src/font.rs`: `"OTTO"` gives `OpenType`; `[0,1,0,0]`, `"true"`, `"typ1"`
give `TrueType`; `"ttcf"` gives `Err(TtcfUnsupported)`; every other
4-byte value gives `Err(InvalidData)`. -/
theorem C3_version_classification :
    Version.decode [0x4F, 0x54, 0x54, 0x4F] = .ok .openType ∧
    Version.decode [0x00, 0x01, 0x00, 0x00] = .ok .trueType ∧
    Version.decode [0x74, 0x72, 0x75, 0x65] = .ok .trueType ∧
    Version.decode [0x74, 0x79, 0x70, 0x31] = .ok .trueType ∧
    Version.decode [0x74, 0x74, 0x63, 0x66] = .err .ttcfUnsupported ∧
    ∀ a b c d : Nat,
      (⟨a, b, c, d⟩ : Tag) ≠ ⟨0x4F, 0x54, 0x54, 0x4F⟩ →
      (⟨a, b, c, d⟩ : Tag) ≠ ⟨0x00, 0x01, 0x00, 0x00⟩ →
      (⟨a, b, c, d⟩ : Tag) ≠ ⟨0x74, 0x72, 0x75, 0x65⟩ →
      (⟨a, b, c, d⟩ : Tag) ≠ ⟨0x74, 0x79, 0x70, 0x31⟩ →
      (⟨a, b, c, d⟩ : Tag) ≠ ⟨0x74, 0x74, 0x63, 0x66⟩ →
      Version.decode [a, b, c, d] = .err .invalidData := by
  refine ⟨by decide, by decide, by decide, by decide, by decide, ?_⟩
  intro a b c d h1 h2 h3 h4 h5
  have htag : Tag.decode [a, b, c, d] = .ok ⟨a, b, c, d⟩ := rfl
  rw [Version.decode, htag]
  simp only [DResult.bind]
  rw [if_neg h1, if_neg (by simp [h2, h3, h4]), if_neg h5]

/-- C3 witness: a concrete unknown tag decodes to `InvalidData`. -/
theorem C3_version_classification_witness :
    Version.decode [9, 9, 9, 9] = .err .invalidData :=
  C3_version_classification.2.2.2.2.2 9 9 9 9 (by decide) (by decide)
    (by decide) (by decide) (by decide)

/-- C8: the `F2Dot14` → float conversions divide the raw `i16` by 16384
and give exactly the six boundary values of the in-repo test, for both
the 64-bit and the 32-bit conversion (both modelled exactly over `ℚ`). -/
theorem C8_f2dot14_values :
    F2Dot14.toF64 0x7FFF = 1.99993896484375 ∧
    F2Dot14.toF64 0x7000 = 1.75 ∧
    F2Dot14.toF64 0x0001 = 0.00006103515625 ∧
    F2Dot14.toF64 0x0000 = 0.0 ∧
    F2Dot14.toF64 (-1) = -0.00006103515625 ∧
    F2Dot14.toF64 (-0x8000) = -2.0 ∧
    F2Dot14.toF32 0x7FFF = 1.99993896484375 ∧
    F2Dot14.toF32 0x7000 = 1.75 ∧
    F2Dot14.toF32 0x0001 = 0.00006103515625 ∧
    F2Dot14.toF32 0x0000 = 0.0 ∧
    F2Dot14.toF32 (-1) = -0.00006103515625 ∧
    F2Dot14.toF32 (-0x8000) = -2.0 := by
  refine ⟨?_, ?_, ?_, ?_, ?_, ?_, ?_, ?_, ?_, ?_, ?_, ?_⟩ <;>
    norm_num [F2Dot14.toF64, F2Dot14.toF32]

/-- C9 (implicit): `Tag::decode` performs no length check and never
returns an `Err`: a buffer of length at least 4 gives `Ok` of its first
four bytes; a shorter buffer makes it index past the end (a panic), not
return `UnexpectedEof`. -/
theorem C9_tag_decode_unchecked :
    (∀ bs : List Nat, 4 ≤ bs.length →
       Tag.decode bs =
         .ok ⟨bs.getD 0 0, bs.getD 1 0, bs.getD 2 0, bs.getD 3 0⟩) ∧
    (∀ bs : List Nat, bs.length < 4 → Tag.decode bs = .panicked) ∧
    (∀ (bs : List Nat) (e : Error), Tag.decode bs ≠ .err e) :=
  ⟨tag_decode_of_le, tag_decode_short, tag_decode_ne_err⟩

/-- C9 witness, at concrete buffers of length 5, 2 and 1. -/
theorem C9_tag_decode_unchecked_witness :
    Tag.decode [1, 2, 3, 4, 5] = .ok ⟨1, 2, 3, 4⟩ ∧
    Tag.decode [1, 2] = .panicked ∧
    Tag.decode [7] ≠ .err .unexpectedEof :=
  ⟨C9_tag_decode_unchecked.1 [1, 2, 3, 4, 5] (by decide),
   C9_tag_decode_unchecked.2.1 [1, 2] (by decide),
   C9_tag_decode_unchecked.2.2 [7] .unexpectedEof⟩

/-- C10 (implicit): `Array::decode_with(buffer, n)` succeeds for every
buffer and count — it performs no check relating `n` to the buffer — and
the resulting `encode_size()` (`T::size() * len`) can exceed the bytes
actually stored, e.g. 6 > 0 for a 3-element `u16` array over an empty
buffer. -/
theorem C10_array_decode_with_unchecked :
    (∀ (α : Type) (buf : List Nat) (n : Nat),
       Array.decodeWith α buf n = .ok { buffer := buf, len := n }) ∧
    (∀ (α : Type) (elemSize : Nat) (a : Array α),
       a.encodeSize elemSize = elemSize * a.len) ∧
    Array.encodeSize 2 (⟨[], 3⟩ : Array Nat) = 6 ∧
    List.length ([] : List Nat) < 6 :=
  ⟨fun _ _ _ => rfl, fun _ _ _ => rfl, rfl, by decide⟩

/-- C1 (amended): for every statically-sized wire type except `Tag` and
`Version`, decode on a buffer of exactly `size()` bytes succeeds with the
big-endian value, and on `size()-1` bytes returns `Err(UnexpectedEof)`.
`Tag::decode` succeeds on 4 bytes (and `Version::decode` never fails for a
length reason on 4 bytes), but on 3 bytes both panic by indexing past the
buffer instead of returning `UnexpectedEof`, because `Tag::decode` has no
length guard. -/
theorem C1_static_size_decode :
    (∀ a : Nat, u8.decode [a] = .ok (read_u8 [a])) ∧
    (u8.decode [] = .err .unexpectedEof) ∧
    (∀ a : Nat, i8.decode [a] = .ok (read_i8 [a])) ∧
    (i8.decode [] = .err .unexpectedEof) ∧
    (∀ a b : Nat, u16.decode [a, b] = .ok (read_u16 [a, b])) ∧
    (∀ a : Nat, u16.decode [a] = .err .unexpectedEof) ∧
    (∀ a b : Nat, i16.decode [a, b] = .ok (read_i16 [a, b])) ∧
    (∀ a : Nat, i16.decode [a] = .err .unexpectedEof) ∧
    (∀ a b c d : Nat,
       u32.decode [a, b, c, d] = .ok (read_u32 [a, b, c, d])) ∧
    (∀ a b c : Nat, u32.decode [a, b, c] = .err .unexpectedEof) ∧
    (∀ a b c d : Nat,
       i32.decode [a, b, c, d] = .ok (read_i32 [a, b, c, d])) ∧
    (∀ a b c : Nat, i32.decode [a, b, c] = .err .unexpectedEof) ∧
    (∀ a b c d e f g h : Nat,
       i64.decode [a, b, c, d, e, f, g, h] =
         .ok (read_i64 [a, b, c, d, e, f, g, h])) ∧
    (∀ a b c d e f g : Nat,
       i64.decode [a, b, c, d, e, f, g] = .err .unexpectedEof) ∧
    (∀ a b c : Nat, Uint24.decode [a, b, c] = .ok (read_u24 [a, b, c])) ∧
    (∀ a b : Nat, Uint24.decode [a, b] = .err .unexpectedEof) ∧
    (∀ a b : Nat, FWord.decode [a, b] = .ok (read_i16 [a, b])) ∧
    (∀ a : Nat, FWord.decode [a] = .err .unexpectedEof) ∧
    (∀ a b : Nat, UFWord.decode [a, b] = .ok (read_u16 [a, b])) ∧
    (∀ a : Nat, UFWord.decode [a] = .err .unexpectedEof) ∧
    (∀ a b : Nat, F2Dot14.decode [a, b] = .ok (read_i16 [a, b])) ∧
    (∀ a : Nat, F2Dot14.decode [a] = .err .unexpectedEof) ∧
    (∀ a b c d : Nat,
       Fixed.decode [a, b, c, d] = .ok (read_i32 [a, b, c, d])) ∧
    (∀ a b c : Nat, Fixed.decode [a, b, c] = .err .unexpectedEof) ∧
    (∀ a b c d e f g h : Nat,
       LongDateTime.decode [a, b, c, d, e, f, g, h] =
         .ok (read_u64 [a, b, c, d, e, f, g, h])) ∧
    (∀ a b c d e f g : Nat,
       LongDateTime.decode [a, b, c, d, e, f, g] = .err .unexpectedEof) ∧
    (∀ a b c d : Nat, Tag.decode [a, b, c, d] = .ok ⟨a, b, c, d⟩) ∧
    (∀ a b c : Nat, Tag.decode [a, b, c] = .panicked) ∧
    (∀ a b c d : Nat,
       Version.decode [a, b, c, d] ≠ .err .unexpectedEof ∧
       Version.decode [a, b, c, d] ≠ .panicked) ∧
    (∀ a b c : Nat, Version.decode [a, b, c] = .panicked) := by
  refine ⟨fun a => rfl, rfl, fun a => rfl, rfl, fun a b => rfl,
    fun a => rfl, fun a b => rfl, fun a => rfl, fun a b c d => rfl,
    fun a b c => rfl, fun a b c d => rfl, fun a b c => rfl,
    fun a b c d e f g h => rfl, fun a b c d e f g => rfl,
    fun a b c => rfl, fun a b => rfl, fun a b => rfl, fun a => rfl,
    fun a b => rfl, fun a => rfl, fun a b => rfl, fun a => rfl,
    fun a b c d => rfl, fun a b c => rfl, fun a b c d e f g h => rfl,
    fun a b c d e f g => rfl, fun a b c d => rfl, fun a b c => rfl,
    ?_, fun a b c => rfl⟩
  intro a b c d
  have htag : Tag.decode [a, b, c, d] = .ok ⟨a, b, c, d⟩ := rfl
  constructor <;>
    · rw [Version.decode, htag]
      simp only [DResult.bind]
      split_ifs <;> simp

/-- C1 witness: two concrete instances of the amended statement. -/
theorem C1_static_size_decode_witness :
    u8.decode [7] = .ok (read_u8 [7]) ∧
    u8.decode [] = .err .unexpectedEof :=
  ⟨C1_static_size_decode.1 7, C1_static_size_decode.2.1⟩

/-- C1 counterexample: the claim as stated fails for `Tag` — decoding a
buffer of length `Tag::size() - 1 = 3` panics (out-of-bounds index)
instead of returning `Err(UnexpectedEof)`; `Version` inherits the same
behavior. -/
theorem C1_static_size_decode_counterexample :
    Tag.decode [0, 0, 0] = .panicked ∧
    Tag.decode [0, 0, 0] ≠ .err .unexpectedEof ∧
    Version.decode [0, 0, 0] = .panicked := by
  refine ⟨rfl, ?_, rfl⟩
  decide

/-- C2 (amended): a valid `Maxp` record encoding (`Version05`, 6 bytes;
`Version1`, 32 bytes) truncated by one byte fails with
`Err(UnexpectedEof)` and never yields a partial record; but a valid
`OffsetTable` header encoding (12 + 16·num_tables bytes, valid version
tag) truncated by one byte makes decode panic (`split_at` past the end of
the slice) instead of returning `UnexpectedEof`. -/
theorem C2_truncated_by_one :
    (∀ bs : List Nat, bs.length = 5 →
       Version05.decode bs = .err .unexpectedEof) ∧
    (∀ bs : List Nat, bs.length = 31 →
       Version1.decode bs = .err .unexpectedEof) ∧
    (∀ (f bs : List Nat) (v : Version),
       Version.decode bs = .ok v →
       bs.length = 11 + 16 * read_u16 (bs.drop 4) →
       OffsetTable.decode f bs = .panicked) := by
  refine ⟨?_, ?_, ?_⟩
  · intro bs h
    simp (disch := omega) only [Version05.decode, Fixed.decode, u16.decode,
      splitAfter, DResult.bind, Fixed.size, u16.size, List.length_drop,
      List.drop_drop, if_pos, if_neg]
  · intro bs h
    simp (disch := omega) only [Version1.decode, Fixed.decode, u16.decode,
      splitAfter, DResult.bind, Fixed.size, u16.size, List.length_drop,
      List.drop_drop, if_pos, if_neg]
  · intro f bs v hv hlen
    have h4 : 4 ≤ bs.length := version_decode_ok_length bs v hv
    revert hlen
    generalize hg : read_u16 (bs.drop 4) = n
    intro hlen
    have hu : u16.decode (bs.drop 4) = .ok n := by
      rw [u16_decode_of_le (bs.drop 4)
        (by simp only [List.length_drop, u16.size]; omega), hg]
    rcases n with _ | m
    · simp (disch := omega) only [OffsetTable.decode, hv, hu, splitAfter,
        DResult.bind, Version.size, u16.size, List.length_drop,
        List.drop_drop, if_pos, if_neg]
    · simp (disch := omega) only [OffsetTable.decode, hv, hu, splitAfter,
        DResult.bind, Version.size, u16.size, List.length_drop,
        List.drop_drop, Array.decodeWith, Array.encodeSize,
        TableRecord.size, Tag.size, u32.size, if_pos, if_neg]

/-- C2 witness: concrete one-byte-truncated buffers for the three record
shapes. -/
theorem C2_truncated_by_one_witness :
    Version05.decode [0, 0, 0x50, 0, 0] = .err .unexpectedEof ∧
    Version1.decode (List.replicate 31 0) = .err .unexpectedEof ∧
    OffsetTable.decode []
      ([0, 1, 0, 0, 0, 1, 0, 0, 0, 0, 0, 0] ++ List.replicate 15 0) =
      .panicked :=
  ⟨C2_truncated_by_one.1 [0, 0, 0x50, 0, 0] (by decide),
   C2_truncated_by_one.2.1 (List.replicate 31 0) (by decide),
   C2_truncated_by_one.2.2 []
     ([0, 1, 0, 0, 0, 1, 0, 0, 0, 0, 0, 0] ++ List.replicate 15 0)
     .trueType (by decide) (by decide)⟩

/-- C2 counterexample: a valid 28-byte `OffsetTable` encoding
(`num_tables = 1`) truncated to 27 bytes makes decode panic — it does
not return `Err(UnexpectedEof)` as the claim states. -/
theorem C2_truncated_by_one_counterexample :
    OffsetTable.decode []
      ([0, 1, 0, 0, 0, 1, 9, 9, 9, 9, 9, 9] ++ List.replicate 15 7) =
      .panicked ∧
    OffsetTable.decode []
      ([0, 1, 0, 0, 0, 1, 9, 9, 9, 9, 9, 9] ++ List.replicate 15 7) ≠
      .err .unexpectedEof := by
  constructor <;> decide

/-! Helper lemmas for the lazy-array iteration and the header scenario. -/

theorem decodeRead_static_ok {α : Type} (c : StaticCodec α) (bs : List Nat)
    (v : α) (hd : c.decode bs = .ok v) (hle : c.size ≤ bs.length) :
    decodeRead c.toCodec bs = (.ok v, bs.drop c.size) := by
  rw [decodeRead]
  simp only [StaticCodec.toCodec]
  rw [hd]
  dsimp only
  rw [if_pos hle]

theorem decodeRead_static_err {α : Type} (c : StaticCodec α) (bs : List Nat)
    (e : Error) (hd : c.decode bs = .err e) :
    decodeRead c.toCodec bs = (.err e, bs) := by
  rw [decodeRead]
  simp only [StaticCodec.toCodec]
  rw [hd]

theorem toListAux_step {α : Type} (c : StaticCodec α) (n : Nat)
    (bs b : List Nat) (v : α)
    (hd : decodeRead c.toCodec bs = (.ok v, b)) :
    ArrayIter.toListAux c (n + 1) bs =
      DResult.map (v :: ·) (ArrayIter.toListAux c n b) := by
  simp only [ArrayIter.toListAux, hd]

theorem toListAux_stop {α : Type} (c : StaticCodec α) (n : Nat)
    (bs : List Nat) (e : Error)
    (hd : decodeRead c.toCodec bs = (.err e, bs)) :
    ArrayIter.toListAux c (n + 1) bs = .ok [] := by
  simp only [ArrayIter.toListAux, hd]

/-- Characterization of the iteration loop for a length-guarded element
codec: with `n` permitted steps, the loop produces exactly
`min n (remaining / size)` decoded elements, in buffer order. -/
theorem toListAux_guarded {α : Type} (c : StaticCodec α)
    (dec : List Nat → α) (hsz : 0 < c.size)
    (hok : ∀ bs : List Nat, c.size ≤ bs.length → c.decode bs = .ok (dec bs))
    (herr : ∀ bs : List Nat, bs.length < c.size →
       c.decode bs = .err .unexpectedEof) :
    ∀ (n : Nat) (bs : List Nat),
      ArrayIter.toListAux c n bs =
        .ok ((List.range (min n (bs.length / c.size))).map
          (fun i => dec (bs.drop (c.size * i)))) := by
  intro n
  induction n with
  | zero => intro bs; simp [ArrayIter.toListAux]
  | succ m ih =>
    intro bs
    rcases Nat.lt_or_ge bs.length c.size with hlt | hge
    · rw [toListAux_stop c m bs .unexpectedEof
        (decodeRead_static_err c bs .unexpectedEof (herr bs hlt))]
      rw [Nat.div_eq_of_lt hlt]
      simp
    · rw [toListAux_step c m bs (bs.drop c.size) (dec bs)
        (decodeRead_static_ok c bs (dec bs) (hok bs hge) hge)]
      rw [ih (bs.drop c.size)]
      simp only [DResult.map, DResult.ok.injEq]
      have hdiv : bs.length / c.size = (bs.length - c.size) / c.size + 1 :=
        Nat.div_eq_sub_div hsz hge
      rw [List.length_drop, hdiv, Nat.succ_min_succ, List.range_succ_eq_map]
      simp only [List.map_cons, List.map_map]
      congr 1
      refine List.map_congr_left ?_
      intro i _
      simp only [Function.comp_apply, List.drop_drop]
      congr 2
      rw [Nat.mul_succ]
      omega

theorem tableRecord_decode_of_le (bs : List Nat) (h : 16 ≤ bs.length) :
    TableRecord.decode bs = .ok (TableRecord.parsedFrom bs) := by
  have htag := tag_decode_of_le bs (by omega)
  simp (disch := omega) only [TableRecord.decode, htag, u32.decode,
    splitAfter, DResult.bind, Tag.size, u32.size, List.length_drop,
    List.drop_drop, if_pos, if_neg, TableRecord.parsedFrom]

theorem tableRecord_parsedFrom_append (r1 r2 : List Nat)
    (h : r1.length = 16) :
    TableRecord.parsedFrom (r1 ++ r2) = TableRecord.parsedFrom r1 := by
  have e4 : (r1.drop 4).length = 12 := by rw [List.length_drop, h]
  have e8 : (r1.drop 8).length = 8 := by rw [List.length_drop, h]
  have e12 : (r1.drop 12).length = 4 := by rw [List.length_drop, h]
  simp (disch := omega) only [TableRecord.parsedFrom, read_u32,
    List.drop_append_of_le_length, List.getD_append]

/-- C5 (amended): for every length-guarded, statically-sized element type
(decode returns the element exactly when at least `size()` bytes remain,
consuming `size()`, and otherwise returns an error — true of all the
guarded primitives, but not of `Tag`): `Array::decode_with` decodes
nothing eagerly, `encode_size() = size() * n`, `into_iter` always starts a
fresh cursor at position 0 (so two fresh iterators yield identical
sequences), and iterating yields exactly `min(n, buf.len / size)` elements
in buffer order. -/
theorem C5_lazy_array_iteration :
    ∀ (α : Type) (c : StaticCodec α) (dec : List Nat → α),
      0 < c.size →
      (∀ bs : List Nat, c.size ≤ bs.length → c.decode bs = .ok (dec bs)) →
      (∀ bs : List Nat, bs.length < c.size →
         c.decode bs = .err .unexpectedEof) →
      ∀ (buf : List Nat) (n : Nat),
        Array.decodeWith α buf n = .ok ⟨buf, n⟩ ∧
        Array.encodeSize c.size (⟨buf, n⟩ : Array α) = c.size * n ∧
        Array.intoIter (⟨buf, n⟩ : Array α) = ⟨buf, n, 0⟩ ∧
        Array.toList c ⟨buf, n⟩ =
          .ok ((List.range (min n (buf.length / c.size))).map
            (fun i => dec (buf.drop (c.size * i)))) := by
  intro α c dec hsz hok herr buf n
  refine ⟨rfl, rfl, rfl, ?_⟩
  show ArrayIter.toListAux c (n - 0) buf = _
  rw [Nat.sub_zero]
  exact toListAux_guarded c dec hsz hok herr n buf

/-- C5 witness: iterating a 3-element `u16` array over a 5-byte buffer
yields the `min(3, 2) = 2` readable values, in order. -/
theorem C5_lazy_array_iteration_witness :
    Fontkit.Array.toList u16.staticCodec ⟨[1, 2, 3, 4, 5], 3⟩ =
      .ok [258, 772] := by
  have h := (C5_lazy_array_iteration Nat u16.staticCodec read_u16
    (by decide) (fun bs hb => u16_decode_of_le bs hb)
    (fun bs hb => u16_decode_short bs hb) [1, 2, 3, 4, 5] 3).2.2.2
  rw [h]
  decide

/-- C5 counterexample: the claim as stated (for *every* statically-sized
element type) fails for `Tag`: iterating a 1-element `Array<Tag>` over an
empty buffer panics inside `Tag::decode` instead of yielding
`min(1, 0) = 0` elements. -/
theorem C5_lazy_array_iteration_counterexample :
    Fontkit.Array.toList Tag.staticCodec ⟨[], 1⟩ = .panicked ∧
    Fontkit.Array.toList Tag.staticCodec ⟨[], 1⟩ ≠ .ok [] := by
  constructor <;> decide

set_option maxRecDepth 4000 in
/-- C7: a header buffer `00 01 00 00` (version) + `00 02` (num_tables) +
6 arbitrary bytes + two 16-byte table records decodes to a record with
`Version::TrueType` and a 2-element `Array` over the record bytes, whose
iteration yields exactly the two records parsed big-endian; and
`TableRecord::size() = 16`. -/
theorem C7_header_scenario :
    TableRecord.size = 16 ∧
    ∀ (f : List Nat) (p1 p2 p3 p4 p5 p6 : Nat) (r1 r2 : List Nat),
      r1.length = 16 → r2.length = 16 →
      OffsetTable.decode f
          (0 :: 1 :: 0 :: 0 :: 0 :: 2 :: p1 :: p2 :: p3 :: p4 :: p5 :: p6 ::
            (r1 ++ r2)) =
        .ok { sfnt_version := .trueType, tables := ⟨r1 ++ r2, 2⟩ } ∧
      Fontkit.Array.toList TableRecord.staticCodec ⟨r1 ++ r2, 2⟩ =
        .ok [TableRecord.parsedFrom r1, TableRecord.parsedFrom r2] := by
  refine ⟨rfl, ?_⟩
  intro f p1 p2 p3 p4 p5 p6 r1 r2 h1 h2
  have hlen : (r1 ++ r2).length = 32 := by
    simp [List.length_append, h1, h2]
  constructor
  · have hv : Version.decode
        (0 :: 1 :: 0 :: 0 :: 0 :: 2 :: p1 :: p2 :: p3 :: p4 :: p5 :: p6 ::
          (r1 ++ r2)) = .ok .trueType := rfl
    have hu : u16.decode
        (0 :: 2 :: p1 :: p2 :: p3 :: p4 :: p5 :: p6 :: (r1 ++ r2)) =
        .ok 2 := by
      rw [u16_decode_of_le _ (by simp [u16.size])]
      rfl
    simp (disch := omega) only [OffsetTable.decode, hv, hu, splitAfter,
      DResult.bind, Version.size, u16.size, List.length_cons, hlen,
      List.drop_succ_cons, List.drop_zero, Array.decodeWith,
      Array.encodeSize, TableRecord.size, Tag.size, u32.size,
      if_pos, if_neg]
  · have hle16 : TableRecord.staticCodec.size ≤ (r1 ++ r2).length := by
      rw [hlen]; decide
    have hd1 : TableRecord.decode (r1 ++ r2) =
        .ok (TableRecord.parsedFrom r1) := by
      rw [tableRecord_decode_of_le _ (by omega),
        tableRecord_parsedFrom_append r1 r2 h1]
    have hd2 : TableRecord.decode r2 = .ok (TableRecord.parsedFrom r2) :=
      tableRecord_decode_of_le _ (by omega)
    have hdrop1 : (r1 ++ r2).drop TableRecord.staticCodec.size = r2 := by
      have hs : TableRecord.staticCodec.size = r1.length := by rw [h1]; rfl
      rw [hs, List.drop_left]
    have hdrop2 : r2.drop TableRecord.staticCodec.size = [] := by
      have hs : TableRecord.staticCodec.size = r2.length := by rw [h2]; rfl
      rw [hs, List.drop_length]
    have hr1 : decodeRead TableRecord.staticCodec.toCodec (r1 ++ r2) =
        (.ok (TableRecord.parsedFrom r1), r2) := by
      rw [decodeRead_static_ok TableRecord.staticCodec (r1 ++ r2) _ hd1
        hle16, hdrop1]
    have hr2 : decodeRead TableRecord.staticCodec.toCodec r2 =
        (.ok (TableRecord.parsedFrom r2), []) := by
      rw [decodeRead_static_ok TableRecord.staticCodec r2 _ hd2
        (by rw [h2]; decide), hdrop2]
    have s2 : ArrayIter.toListAux TableRecord.staticCodec 2 (r1 ++ r2) =
        DResult.map (TableRecord.parsedFrom r1 :: ·)
          (ArrayIter.toListAux TableRecord.staticCodec 1 r2) :=
      toListAux_step TableRecord.staticCodec 1 (r1 ++ r2) r2
        (TableRecord.parsedFrom r1) hr1
    have s1 : ArrayIter.toListAux TableRecord.staticCodec 1 r2 =
        DResult.map (TableRecord.parsedFrom r2 :: ·)
          (ArrayIter.toListAux TableRecord.staticCodec 0 []) :=
      toListAux_step TableRecord.staticCodec 0 r2 []
        (TableRecord.parsedFrom r2) hr2
    show ArrayIter.toListAux TableRecord.staticCodec (2 - 0) (r1 ++ r2) = _
    rw [Nat.sub_zero, s2, s1]
    rfl

/-- C7 witness: a fully concrete 44-byte header with two records. -/
theorem C7_header_scenario_witness :
    OffsetTable.decode []
        (0 :: 1 :: 0 :: 0 :: 0 :: 2 :: 9 :: 9 :: 9 :: 9 :: 9 :: 9 ::
          ([0x63, 0x6D, 0x61, 0x70, 0, 0, 0, 1, 0, 0, 0, 2, 0, 0, 0, 3] ++
           [0x68, 0x65, 0x61, 0x64, 0, 0, 1, 1, 0, 0, 1, 2, 0, 0, 1, 3])) =
      .ok { sfnt_version := .trueType,
            tables := ⟨[0x63, 0x6D, 0x61, 0x70, 0, 0, 0, 1, 0, 0, 0, 2,
              0, 0, 0, 3] ++ [0x68, 0x65, 0x61, 0x64, 0, 0, 1, 1, 0, 0, 1,
              2, 0, 0, 1, 3], 2⟩ } ∧
    Fontkit.Array.toList TableRecord.staticCodec
        ⟨[0x63, 0x6D, 0x61, 0x70, 0, 0, 0, 1, 0, 0, 0, 2, 0, 0, 0, 3] ++
         [0x68, 0x65, 0x61, 0x64, 0, 0, 1, 1, 0, 0, 1, 2, 0, 0, 1, 3], 2⟩ =
      .ok [⟨⟨0x63, 0x6D, 0x61, 0x70⟩, 1, 2, 3⟩,
           ⟨⟨0x68, 0x65, 0x61, 0x64⟩, 0x101, 0x102, 0x103⟩] := by
  have h := (C7_header_scenario.2 [] 9 9 9 9 9 9
    [0x63, 0x6D, 0x61, 0x70, 0, 0, 0, 1, 0, 0, 0, 2, 0, 0, 0, 3]
    [0x68, 0x65, 0x61, 0x64, 0, 0, 1, 1, 0, 0, 1, 2, 0, 0, 1, 3]
    (by decide) (by decide))
  refine ⟨h.1, ?_⟩
  rw [h.2]
  decide

end Fontkit
